import Mathlib

/-!
Shallow embedding of the Launch Sidebar extension's Configuration Discovery
and Aggregation Engine, and proofs about it.

Conventions used throughout:
* JavaScript strings are modelled as Lean `String` (the repository only ever
  manipulates them as character sequences).
* Absolute filesystem paths are modelled as `List String`: the list of path
  components below the filesystem root, so `["ws", "package.json"]` stands
  for `/ws/package.json`.  `path.dirname` is `List.dropLast`;
  `path.resolve(p, "../..")` drops the last two components (bottoming out at
  the root, which `dropLast` does automatically); `path.relative(a, b) == ""`
  is path equality.
* The filesystem itself is a structure of query functions (`existsSync`,
  `readdirSync`, parse results of file contents), so every theorem
  quantifying over it covers all contents of the watched files.
-/

namespace LaunchSidebar

/-- JavaScript `String.prototype.includes` on character lists:
`jsIncludes s pat` is true iff `pat` occurs contiguously in `s`. -/
def jsIncludes (s pat : List Char) : Bool :=
  match s with
  | [] => pat.isPrefixOf ([] : List Char)
  | _ :: t => pat.isPrefixOf s || jsIncludes t pat

/-- JavaScript `String.prototype.startsWith`. -/
def jsStartsWith (s pat : List Char) : Bool :=
  pat.isPrefixOf s

/-- ASCII lowering of one character, as `String.prototype.toLowerCase`
behaves on the ASCII identifiers this codebase compares. -/
def asciiLower (c : Char) : Char :=
  if ('A' ≤ c && c ≤ 'Z') then Char.ofNat (c.toNat + 32) else c

/-- `String.prototype.toLowerCase` on character lists (ASCII fragment). -/
def jsToLower (s : List Char) : List Char :=
  s.map asciiLower

/-- `Array.prototype.join(' ')` for a list of script bodies. -/
def joinSpace : List (List Char) → List Char
  | [] => []
  | [s] => s
  | s :: rest => s ++ ' ' :: joinSpace rest

/-! ## Package-Manager Resolver (src/utils/package-manager.ts) -/

/-- The package manager tools supported by the extension
(`type PackageManager = 'npm' | 'yarn' | 'pnpm'`). -/
inductive PackageManager where
  | npm
  | yarn
  | pnpm
deriving DecidableEq, Repr

/-- The fields of a parsed `package.json` that `detectPackageManager`
inspects.  `packageManager := some s` models a present, truthy
`packageManager` field with value `s` (`some ""` is falsy in JS and is
guarded accordingly below).  `enginesNpm`/`enginesYarn`/`enginesPnpm` model
the truthiness of `engines.npm`/`engines.yarn`/`engines.pnpm`.
`scripts := some vs` models a truthy `scripts` object whose values,
in order, are `vs`. -/
structure PackageJson where
  packageManager : Option String
  enginesNpm : Bool
  enginesYarn : Bool
  enginesPnpm : Bool
  scripts : Option (List String)
deriving Repr

/-- A path below the filesystem root, as its list of components. -/
abbrev FsPath := List String

/-- The filesystem queries `package-manager.ts` makes: `fs.existsSync`
and the outcome of `JSON.parse(fs.readFileSync …)` (`none` models a parse
or read exception, caught by the source). -/
structure PmFs where
  fileExists : FsPath → Bool
  parseJson : FsPath → Option PackageJson

/-- The in-manifest detection strategies of `detectPackageManager`
(strategy 1: explicit `packageManager` field; then `engines` hints; then the
script-body heuristic), returning `some pm` when one of them fires and
`none` when control falls through to the lock-file strategies. -/
def detectFromManifest (pj : PackageJson) : Option PackageManager :=
  let afterEngines : Option PackageManager :=
    if pj.enginesNpm then some .npm
    else if pj.enginesYarn then some .yarn
    else if pj.enginesPnpm then some .pnpm
    else
      match pj.scripts with
      | some vals =>
        let scriptValues := joinSpace (vals.map String.toList)
        if jsIncludes scriptValues "pnpm ".toList &&
            !(jsIncludes scriptValues "npm ".toList) then some .pnpm
        else if jsIncludes scriptValues "yarn ".toList &&
            !(jsIncludes scriptValues "npm ".toList) then some .yarn
        else none
      | none => none
  match pj.packageManager with
  | some s =>
    if s ≠ "" then
      let pm := jsToLower s.toList
      if jsStartsWith pm "pnpm@".toList then some .pnpm
      else if jsStartsWith pm "yarn@".toList then some .yarn
      else if jsStartsWith pm "npm@".toList then some .npm
      else afterEngines
    else afterEngines
  | none => afterEngines

/-- `path.resolve(packageDir, "../..")`: drop the last two components,
bottoming out at the filesystem root. -/
def resolveUpTwo (dir : FsPath) : FsPath :=
  dir.dropLast.dropLast

/-- The source's root test
`path.relative(path.resolve(packageDir, "../.."), packageDir) === ""`:
the package directory equals its own grandparent. -/
def isRootPackageDir (dir : FsPath) : Bool :=
  resolveUpTwo dir == dir

/-- `detectPackageManager(packageJsonPath, rootLockfileManager?)` from
`src/utils/package-manager.ts`, embedded over the filesystem model. -/
def detectPackageManager (fs : PmFs) (packageJsonPath : FsPath)
    (rootLockfileManager : Option PackageManager) : PackageManager :=
  let packageDir := packageJsonPath.dropLast
  let workspaceRoot := resolveUpTwo packageDir
  let isRootPackage := isRootPackageDir packageDir
  match rootLockfileManager, isRootPackage with
  | some pm, false => pm
  | _, _ =>
    let fromManifest : Option PackageManager :=
      if fs.fileExists packageJsonPath then
        (fs.parseJson packageJsonPath).bind detectFromManifest
      else none
    match fromManifest with
    | some pm => pm
    | none =>
      if fs.fileExists (packageDir ++ ["pnpm-lock.yaml"]) then .pnpm
      else if fs.fileExists (packageDir ++ ["yarn.lock"]) then .yarn
      else if fs.fileExists (packageDir ++ ["package-lock.json"]) then .npm
      else if isRootPackage then .npm
      else if fs.fileExists (workspaceRoot ++ ["pnpm-lock.yaml"]) then .pnpm
      else if fs.fileExists (workspaceRoot ++ ["yarn.lock"]) then .yarn
      else if fs.fileExists (workspaceRoot ++ ["package-lock.json"]) then .npm
      else .npm

/-- `detectRootPackageManager(workspacePath)` from
`src/utils/package-manager.ts`. -/
def detectRootPackageManager (fs : PmFs) (workspacePath : FsPath) :
    Option PackageManager :=
  if fs.fileExists (workspacePath ++ ["pnpm-lock.yaml"]) then some .pnpm
  else if fs.fileExists (workspacePath ++ ["yarn.lock"]) then some .yarn
  else if fs.fileExists (workspacePath ++ ["package-lock.json"]) then some .npm
  else none

/-! ## Recency Store (src/models/recent-items.ts) -/

/-- The identity a recent entry is deduplicated by: the item's `name`
together with `constructor.name` (the item kind: `LaunchConfigurationItem`,
`ScriptItem`, `JetBrainsRunConfigItem`, or `MakefileTaskItem`). -/
structure RecentItem where
  name : String
  ctorName : String
deriving DecidableEq, Repr

/-- `MAX_RECENT_ITEMS` from `src/models/recent-items.ts`. -/
def MAX_RECENT_ITEMS : Nat := 10

/-- The identity test applied inside `addRecentItem`/`removeRecentItem`:
`existing.name === item.name && existing.constructor.name === item.constructor.name`. -/
def sameRecentIdentity (a b : RecentItem) : Bool :=
  a.name == b.name && a.ctorName == b.ctorName

/-- The list transformation performed by
`RecentItemsManager.addRecentItem`: filter out entries with the same
`(name, constructor.name)` identity, `unshift` the new item to the front,
and `pop` one entry off the tail when the length exceeds
`MAX_RECENT_ITEMS`. -/
def addRecentItem (items : List RecentItem) (item : RecentItem) :
    List RecentItem :=
  let filtered := items.filter (fun existing => !sameRecentIdentity existing item)
  let added := item :: filtered
  if added.length > MAX_RECENT_ITEMS then added.dropLast else added

/-! ## Visibility Store (src/models/hidden-items-manager.ts) -/

/-- A `HiddenItem` record from `hidden-items-manager.ts`. -/
structure HiddenItem where
  id : String
  name : String
  type_ : String
  path : Option String
  folder : Option String
  isSection : Option Bool
deriving DecidableEq, Repr

/-- The observable state of a `HiddenItemsManager`: the in-memory hidden
items list plus counters for the effects `saveHiddenItems` performs (one
`globalState.update` write and one `onDidChangeHiddenItems` firing per
call). -/
structure HiddenItemsState where
  hiddenItems : List HiddenItem
  storageWrites : Nat
  changeEvents : Nat
deriving DecidableEq, Repr

/-- `HiddenItemsManager.isItemHidden(itemId)`:
`this._hiddenItems.some(item => item.id === itemId)`. -/
def isItemHidden (hiddenItems : List HiddenItem) (itemId : String) : Bool :=
  hiddenItems.any (fun item => item.id == itemId)

/-- `HiddenItemsManager.hideItem(item)`: when the id is not already hidden,
push the item and call `saveHiddenItems` (which performs one storage write
and fires one change notification); otherwise do nothing. -/
def hideItem (st : HiddenItemsState) (item : HiddenItem) : HiddenItemsState :=
  if !isItemHidden st.hiddenItems item.id then
    { hiddenItems := st.hiddenItems ++ [item]
      storageWrites := st.storageWrites + 1
      changeEvents := st.changeEvents + 1 }
  else st

/-! ## Build-file target reader (`getMakefileTasks` in
src/providers/launch-configuration-provider.ts) -/

/-- Membership in the JavaScript regex class `\s` (the whitespace
characters relevant to this codebase's line-oriented scanning). -/
def jsWhitespace (c : Char) : Bool :=
  c == ' ' || c == '\t' || c == '\n' || c == '\r' ||
    c == Char.ofNat 11 || c == Char.ofNat 12

/-- A character of the Makefile target-name class `[a-zA-Z0-9_\-]`. -/
def makeWordChar (c : Char) : Bool :=
  (('a' ≤ c && c ≤ 'z') || ('A' ≤ c && c ≤ 'Z') ||
    ('0' ≤ c && c ≤ '9') || c == '_' || c == '-')

/-- Attempt to match the target regex
`^(?![ \t#])([a-zA-Z0-9_\-]+):([^=\n]*)` at the given line-start position:
returns the captured target name together with the length of the
`([^=\n]*)` capture after the colon, so that the whole match consumes
`name.length + 1 + afterColonLen` characters.  (The negative lookahead is
subsumed by the name class: space, tab and `#` are not name characters.) -/
def matchTargetAt (s : List Char) : Option (List Char × Nat) :=
  let nameChars := s.takeWhile makeWordChar
  if nameChars.isEmpty then none
  else
    match s.drop nameChars.length with
    | ':' :: rest =>
      let tail := rest.takeWhile (fun c => !(c == '=' || c == '\n'))
      some (nameChars, tail.length)
    | _ => none

/-- JavaScript `String.prototype.split('\n')` on character lists. -/
def splitNewline (s : List Char) : List (List Char) :=
  match s with
  | [] => [[]]
  | '\n' :: rest => [] :: splitNewline rest
  | c :: rest =>
    match splitNewline rest with
    | [] => [[c]]
    | l :: ls => (c :: l) :: ls

/-- All matches of the target regex over the content, in the style of a
repeated `regex.exec` with the `g` and `m` flags, computed line by line:
with the `m` flag the `^` anchor positions are exactly the line starts, a
match never spans a newline (its three parts all exclude `\n`), at most
one match can start on a given line (its only `^` position is its start),
and after a match `lastIndex` still lies before the next line start — so
the global exec loop visits exactly the lines, in order.  The second
component of each returned pair is the remainder of the whole content
after the matched text (the rest of the matched line rejoined with the
following lines), which is what the recipe scan slices. -/
def findTargetsInLines : List (List Char) → List (List Char × List Char)
  | [] => []
  | line :: rest =>
    match matchTargetAt line with
    | some (name, afterColonLen) =>
      let rem := line.drop (name.length + 1 + afterColonLen) ++
        rest.flatMap (fun l => '\n' :: l)
      (name, rem) :: findTargetsInLines rest
    | none => findTargetsInLines rest

/-- JavaScript `String.prototype.trim` (strip `\s` from both ends). -/
def jsTrim (s : List Char) : List Char :=
  ((s.dropWhile jsWhitespace).reverse.dropWhile jsWhitespace).reverse

/-- The recipe scan of `getMakefileTasks`: split the content remaining
after the target match on newlines, then walk the lines, pushing
`line.trim()` while `/^\s+/` matches and `/^\s*#/` does not, and breaking
at the first line failing that test.  The collected lines are joined with
newlines. -/
def recipeOf (rem : List Char) : List Char :=
  let lines := splitNewline rem
  let rec collect : List (List Char) → List (List Char)
    | [] => []
    | line :: rest =>
      if (match line with
          | [] => false
          | c :: _ => jsWhitespace c) &&
         !(match line.dropWhile jsWhitespace with
           | '#' :: _ => true
           | _ => false) then
        jsTrim line :: collect rest
      else []
  joinNewline (collect lines)
where
  /-- `Array.prototype.join('\n')`. -/
  joinNewline : List (List Char) → List Char
    | [] => []
    | [l] => l
    | l :: ls => l ++ '\n' :: joinNewline ls

/-- `getMakefileTasks` from
`src/providers/launch-configuration-provider.ts`, reduced to its pure
content → tasks computation: each regex match of a target yields one task
whose recipe is computed by the recipe scan over the content following the
match. -/
def getMakefileTasks (content : String) : List (String × String) :=
  (findTargetsInLines (splitNewline content.toList)).map
    (fun p => (String.mk p.1, String.mk (recipeOf p.2)))

/-! ## Debug-configuration position lookup (`findConfigPosition` in
src/providers/launch-configuration-provider.ts) -/

/-- The opening-brace character, `{`. -/
def obrace : Char := Char.ofNat 123

/-- The closing-brace character, `}`. -/
def cbrace : Char := Char.ofNat 125

/-- The single-quote character. -/
def squote : Char := Char.ofNat 39

/-- The characters of the escape class in
`configName.replace(/[.*+?^${}()|[\]\\]/g, "\\$&")`. -/
def regexSpecialChar (c : Char) : Bool :=
  c == '.' || c == '*' || c == '+' || c == '?' || c == '^' || c == '$' ||
    c == obrace || c == cbrace || c == '(' || c == ')' || c == '|' ||
    c == '[' || c == ']' || c == '\\'

/-- The escaping step of `findConfigPosition`: prefix every
regex-special character of the configuration name with a backslash
(JavaScript `configName.replace(/[.*+?^${}()|[\]\\]/g, "\\$&")`). -/
def escapeRegExp : List Char → List Char
  | [] => []
  | c :: rest =>
    if regexSpecialChar c then '\\' :: c :: escapeRegExp rest
    else c :: escapeRegExp rest

/-- Interpretation of a regex pattern consisting solely of literal atoms:
a backslash makes the next character literal, and a bare character is legal
only when it is not regex-special.  `litPattern pat = some s` means the
pattern `pat` is such a purely literal pattern and matches exactly the
character sequence `s`.  This connects the escaped name embedded in the
`findConfigPosition` regex to literal matching of the original name. -/
def litPattern : List Char → Option (List Char)
  | [] => some []
  | c :: rest =>
    if c == '\\' then
      match rest with
      | [] => none
      | d :: rest2 => (litPattern rest2).map (fun t => d :: t)
    else if regexSpecialChar c then none
    else (litPattern rest).map (fun t => c :: t)

/-- A quote character, the class `["']` of the configuration regex. -/
def quoteChar (c : Char) : Bool :=
  c == '"' || c == squote

/-- Consume leading whitespace (`[\s\n]*` or `\s*`). -/
def eatWs (s : List Char) : List Char :=
  s.dropWhile jsWhitespace

/-- Consume one character satisfying the predicate. -/
def eatCharIf (p : Char → Bool) : List Char → Option (List Char)
  | [] => none
  | c :: rest => if p c then some rest else none

/-- Consume a literal character sequence. -/
def eatLit (lit s : List Char) : Option (List Char) :=
  if lit.isPrefixOf s then some (s.drop lit.length) else none

/-- Match the configuration-header regex
`[\s\n]*{[\s\n]*["']name["']\s*:\s*["']NAME["']` (with `NAME` the escaped
configuration name, hence by `litPattern` a literal occurrence of the
name) against a prefix of `s`, returning the number of characters matched.
Because every literal atom following a starred whitespace class is itself
non-whitespace, the greedy left-to-right scan below coincides with the
backtracking regex semantics. -/
def matchConfigHeaderAt (name s : List Char) : Option Nat := do
  let s1 ← eatCharIf (fun c => c == obrace) (eatWs s)
  let s2 ← eatCharIf quoteChar (eatWs s1)
  let s3 ← eatLit "name".toList s2
  let s4 ← eatCharIf quoteChar s3
  let s5 ← eatCharIf (fun c => c == ':') (eatWs s4)
  let s6 ← eatCharIf quoteChar (eatWs s5)
  let s7 ← eatLit name s6
  let s8 ← eatCharIf quoteChar s7
  return s.length - s8.length

/-- The `exec` search of the compiled configuration regex: try the header
match at offsets `i, i+1, …` over successive suffixes of the text and
return the first `(index, matchLength)` pair. -/
def findConfigMatchFrom (name : List Char) : List Char → Nat → Option (Nat × Nat)
  | [], _ => none
  | s@(_ :: rest), i =>
    match matchConfigHeaderAt name s with
    | some len => some (i, len)
    | none => findConfigMatchFrom name rest (i + 1)

/-- `document.positionAt(offset)`: zero-based line and character of the
given offset in the text. -/
def positionAt (text : List Char) (offset : Nat) : Nat × Nat :=
  let pre := text.take offset
  (pre.countP (fun c => c == '\n'),
    (pre.reverse.takeWhile (fun c => !(c == '\n'))).length)

/-- The brace-balancing loop of `findConfigPosition`, walking the text
from the end of the regex match with an initial brace count of 1:
`some off` is the offset just past the character that brought the count to
zero, `none` means the scan ran off the end of the document with the count
still positive. -/
def findBlockEnd : List Char → Nat → Nat → Option Nat
  | [], _, _ => none
  | c :: rest, offset, count =>
    let count2 :=
      if c == obrace then count + 1
      else if c == cbrace then count - 1
      else count
    if count2 == 0 then some (offset + 1)
    else findBlockEnd rest (offset + 1) count2

/-- The `ConfigPosition` record produced by `findConfigPosition`
(the `uri` field of the source record carries no positional content and is
omitted). -/
structure ConfigPosition where
  startLine : Nat
  startCharacter : Nat
  endLine : Nat
  endCharacter : Nat
deriving DecidableEq, Repr

/-- `findConfigPosition(document, configName)` from
`src/providers/launch-configuration-provider.ts`: locate the first match
of the configuration-header regex built from the escaped name, then
balance braces to find the end of the block.  When the regex does not
match, the result is `none`; when the brace scan runs off the end of the
document, `endPos` keeps its initial value, the end of the regex match. -/
def findConfigPosition (text configName : List Char) : Option ConfigPosition :=
  match findConfigMatchFrom configName text 0 with
  | none => none
  | some (idx, len) =>
    let startPos := positionAt text idx
    let matchEnd := idx + len
    let endOffset :=
      match findBlockEnd (text.drop matchEnd) matchEnd 1 with
      | some e => e
      | none => matchEnd
    let endPos := positionAt text endOffset
    some { startLine := startPos.1, startCharacter := startPos.2
           endLine := endPos.1, endCharacter := endPos.2 }

/-! ## JetBrains run-configuration extraction
(src/utils/jetbrains-parser.ts, `processGoConfiguration` and
`processShellOption`) -/

/-- The literal `$PROJECT_DIR$` substitution token. -/
def projectDirToken : List Char := "$PROJECT_DIR$".toList

/-- Fuelled worker for the global token replacement: every step consumes
at least one character of `s`, so any fuel of at least `s.length` yields
the fixpoint computation and the fuel-exhaustion branch is unreachable.
(The fuel makes the recursion structural so that concrete instances
evaluate inside the kernel.) -/
def replaceProjectDirFuel (root : List Char) : Nat → List Char → List Char
  | _, [] => []
  | 0, s => s
  | fuel + 1, c :: rest =>
    if projectDirToken.isPrefixOf (c :: rest) then
      root ++ replaceProjectDirFuel root fuel
        ((c :: rest).drop projectDirToken.length)
    else c :: replaceProjectDirFuel root fuel rest

/-- `value.replace(/\$PROJECT_DIR\$/g, root)`: replace every
(left-to-right, non-overlapping) occurrence of the `$PROJECT_DIR$` token
with the workspace root path. -/
def replaceProjectDir (root : List Char) (s : List Char) : List Char :=
  replaceProjectDirFuel root s.length s

/-- The fields of a `JetBrainsRunConfig` populated by the type-specific
extractors (`name`, `type` and `xmlFilePath` are set before dispatch and
not touched by them). -/
structure JetRunConfig where
  packagePath : Option String
  command : Option String
  workingDirectory : Option String
  scriptText : Option String
  interpreter : Option String
  executeInTerminal : Option Bool
  executeScriptFile : Option Bool
deriving DecidableEq, Repr

/-- An empty `JetBrainsRunConfig` as built right before dispatch
(`{ name, type, xmlFilePath }`: every optional field absent). -/
def emptyJetRunConfig : JetRunConfig :=
  { packagePath := none, command := none, workingDirectory := none
    scriptText := none, interpreter := none, executeInTerminal := none
    executeScriptFile := none }

/-- One element of a Go-application configuration as
`processGoConfiguration` reads it: the `_value` attributes of the
`package`, `working_directory` and `go_parameters` children (`none` models
an absent child or absent `_value`; the source guards each access with JS
truthiness, so an empty-string value is also skipped). -/
structure GoConfigElement where
  packageValue : Option String
  workingDirectoryValue : Option String
  goParametersValue : Option String
deriving DecidableEq, Repr

/-- The per-element body shared by both branches of
`processGoConfiguration`: copy the package path verbatim, substitute
`$PROJECT_DIR$` in the working directory, and copy the go parameters
verbatim into `command`. -/
def applyGoElement (root : String) (rc : JetRunConfig)
    (el : GoConfigElement) : JetRunConfig :=
  let rc1 :=
    match el.packageValue with
    | some v => if !(v == "") then { rc with packagePath := some v } else rc
    | none => rc
  let rc2 :=
    match el.workingDirectoryValue with
    | some v =>
      if !(v == "") then
        let wd := String.mk (replaceProjectDir root.toList v.toList)
        { rc1 with workingDirectory := some wd }
      else rc1
    | none => rc1
  match el.goParametersValue with
  | some v => if !(v == "") then { rc2 with command := some v } else rc2
  | none => rc2

/-- The two shapes `processGoConfiguration` distinguishes: the
alternate-parser object shape (`!Array.isArray(configElement)`), and the
primary-parser array shape, processed element by element. -/
inductive GoConfigShape where
  | single (el : GoConfigElement)
  | multi (els : List GoConfigElement)
deriving Repr

/-- `processGoConfiguration(configElement, runConfig, workspaceFolder)`
from `src/utils/jetbrains-parser.ts`. -/
def processGoConfiguration (shape : GoConfigShape) (rc : JetRunConfig)
    (root : String) : JetRunConfig :=
  match shape with
  | .single el => applyGoElement root rc el
  | .multi els => els.foldl (applyGoElement root) rc

/-- An `option` element as `processShellOption` reads it: its `_name` and
`_value` attributes (`option?._name || ''` defaults an absent attribute to
the empty string, which the embedding mirrors with `getD ""`). -/
structure ShellOption where
  nameAttr : Option String
  valueAttr : Option String
deriving DecidableEq, Repr

/-- `processShellOption(option, runConfig, workspaceFolder)` from
`src/utils/jetbrains-parser.ts`: each guarded assignment requires the
attribute name to match and the value to be truthy (non-empty);
`$PROJECT_DIR$` is substituted in `SCRIPT_PATH` and
`SCRIPT_WORKING_DIRECTORY` only. -/
def processShellOption (opt : ShellOption) (rc : JetRunConfig)
    (root : String) : JetRunConfig :=
  let name := opt.nameAttr.getD ""
  let value := opt.valueAttr.getD ""
  let rc := if name == "SCRIPT_TEXT" && !(value == "") then
      { rc with scriptText := some value } else rc
  let substituted := String.mk (replaceProjectDir root.toList value.toList)
  let rc := if name == "SCRIPT_PATH" && !(value == "") then
      { rc with packagePath := some substituted }
    else rc
  let rc := if name == "SCRIPT_WORKING_DIRECTORY" && !(value == "") then
      { rc with workingDirectory := some substituted }
    else rc
  let rc := if name == "INTERPRETER_PATH" && !(value == "") then
      { rc with interpreter := some value } else rc
  let lowerIsTrue := jsToLower value.toList == "true".toList
  let rc := if name == "EXECUTE_IN_TERMINAL" && !(value == "") then
      { rc with executeInTerminal := some lowerIsTrue }
    else rc
  let rc := if name == "EXECUTE_SCRIPT_FILE" && !(value == "") then
      { rc with executeScriptFile := some lowerIsTrue }
    else rc
  if name == "SCRIPT_OPTIONS" && !(value == "") then
    { rc with command := some value } else rc

/-! ## Aggregator / Tree Builder
(`getSections`, `hasJetBrainsRunConfigurations`, `shouldShowSection` in
src/providers/launch-configuration-provider.ts, and the validity logic of
`JetBrainsRunConfigParser.findRunConfigurations`) -/

/-- A `vscode.WorkspaceFolder`: its display name and `uri.fsPath`. -/
structure WorkspaceFolder where
  name : String
  fsPath : FsPath
deriving DecidableEq, Repr

/-- One `fs.Dirent` from `readdirSync(dir, { withFileTypes: true })`. -/
structure DirEntry where
  entryName : String
  isDirectory : Bool
deriving DecidableEq, Repr

/-- The parsed content of one run-configuration XML file, at the
granularity the repository's code inspects it after the external
`fast-xml-parser` library has run: either the parse throws, or it yields a
list of `component` elements, each holding a list of `configuration`
elements carrying their `name` and `type` attributes (`none` models an
absent attribute; an empty string is falsy and equally rejected). -/
inductive JetXmlContent where
  | unparseable
  | parsed (components : List (List (Option String × Option String)))
deriving DecidableEq, Repr

/-- The filesystem queries the tree builder and the run-configuration
reader make: `fs.existsSync`, `fs.readdirSync` (`none` models a thrown
error, caught by the source), and the parse outcome of each XML file's
content. -/
structure ProviderFs where
  existsSync : FsPath → Bool
  readdirSync : FsPath → Option (List DirEntry)
  xmlContent : FsPath → JetXmlContent

/-- `path.extname(name)`: the suffix starting at the last dot, empty when
there is no dot or the only dot is the leading character. -/
def extname (s : List Char) : List Char :=
  if s == "..".toList then []
  else
    let rev := s.reverse
    let afterDot := rev.takeWhile (fun c => !(c == '.'))
    if afterDot.length + 1 < s.length then
      ('.' :: afterDot.reverse)
    else if afterDot.length + 1 == s.length && s.headD '.' != '.' then
      ('.' :: afterDot.reverse)
    else []

/-- The XML-file test of `hasJetBrainsRunConfigurations`:
`file.isFile() && path.extname(file.name).toLowerCase() === ".xml"`. -/
def isXmlFileEntry (e : DirEntry) : Bool :=
  !e.isDirectory && jsToLower (extname e.entryName.toList) == ".xml".toList

/-- The slightly wider XML-file test of the run-configuration reader:
additionally admits names ending in `.run.xml` (subsumed by the extension
test, kept for faithfulness). -/
def isRunXmlFileEntry (e : DirEntry) : Bool :=
  !e.isDirectory &&
    (jsToLower (extname e.entryName.toList) == ".xml".toList ||
      (".run.xml".toList).isSuffixOf (jsToLower e.entryName.toList))

/-- The case-insensitive `.run` directory lookup shared by the provider
and the reader:
`items.find(item => item.isDirectory() && item.name.toLowerCase() === ".run")`. -/
def findRunDirEntry (items : List DirEntry) : Option DirEntry :=
  items.find? (fun it =>
    it.isDirectory && jsToLower it.entryName.toList == ".run".toList)

/-- `hasJetBrainsRunConfigurations(folder)` from
`src/providers/launch-configuration-provider.ts`: true when the
(case-insensitively named) `.run` directory or the
`.idea/runConfigurations` directory contains at least one XML file.  The
files' contents are never consulted. -/
def hasJetBrainsRunConfigurations (fs : ProviderFs) (folderPath : FsPath) :
    Bool :=
  let runCheck : Bool :=
    match fs.readdirSync folderPath with
    | none => false
    | some items =>
      match findRunDirEntry items with
      | some runDir =>
        match fs.readdirSync (folderPath ++ [runDir.entryName]) with
        | none => false
        | some files => !(files.filter isXmlFileEntry).isEmpty
      | none => false
  if runCheck then true
  else if fs.existsSync (folderPath ++ [".idea"]) then
    if fs.existsSync (folderPath ++ [".idea", "runConfigurations"]) then
      match fs.readdirSync (folderPath ++ [".idea", "runConfigurations"]) with
      | none => false
      | some files => !(files.filter isXmlFileEntry).isEmpty
    else false
  else false

/-- The validity filter `parseXmlConfigurationFiles` applies to one parsed
XML file: every `configuration` element of every `component` element that
carries a truthy `name` and a truthy `type` yields one run configuration;
everything else is skipped (as is the whole file when parsing throws). -/
def configsOfXmlFile : JetXmlContent → List (String × String)
  | .unparseable => []
  | .parsed components =>
    components.flatMap (fun confs =>
      confs.filterMap (fun attrs =>
        match attrs with
        | (some n, some t) =>
          if !(n == "") && !(t == "") then some (n, t) else none
        | _ => none))

/-- The XML file paths the run-configuration reader collects from the
`.run` directory of a folder. -/
def runFolderXmlFiles (fs : ProviderFs) (folderPath : FsPath) :
    List FsPath :=
  match fs.readdirSync folderPath with
  | none => []
  | some items =>
    match findRunDirEntry items with
    | some runDir =>
      match fs.readdirSync (folderPath ++ [runDir.entryName]) with
      | none => []
      | some files =>
        (files.filter isRunXmlFileEntry).map
          (fun f => folderPath ++ [runDir.entryName, f.entryName])
    | none => []

/-- The XML file paths the run-configuration reader collects from the
`.idea/runConfigurations` directory of a folder. -/
def ideaFolderXmlFiles (fs : ProviderFs) (folderPath : FsPath) :
    List FsPath :=
  if fs.existsSync (folderPath ++ [".idea"]) then
    if fs.existsSync (folderPath ++ [".idea", "runConfigurations"]) then
      match fs.readdirSync (folderPath ++ [".idea", "runConfigurations"]) with
      | none => []
      | some files =>
        (files.filter isRunXmlFileEntry).map
          (fun f => folderPath ++ [".idea", "runConfigurations", f.entryName])
    else []
  else []

/-- `JetBrainsRunConfigParser.findRunConfigurations(workspaceFolder)`,
reduced to the `(name, type)` pairs of the valid configurations it
returns: both conventional directories are scanned and each XML file
contributes its valid configurations. -/
def findRunConfigurations (fs : ProviderFs) (folderPath : FsPath) :
    List (String × String) :=
  (runFolderXmlFiles fs folderPath ++ ideaFolderXmlFiles fs folderPath).flatMap
    (fun p => configsOfXmlFile (fs.xmlContent p))

/-- The `SectionType` enum from `src/models/section-item.ts`. -/
inductive SectionType where
  | launchConfigurations
  | scripts
  | recent
  | jetbrainsConfigs
  | makefileTasks
deriving DecidableEq, Repr

/-- The string value of each `SectionType` enum member. -/
def sectionTypeStr : SectionType → String
  | .launchConfigurations => "launch-configs"
  | .scripts => "scripts"
  | .recent => "recent"
  | .jetbrainsConfigs => "jetbrains-configs"
  | .makefileTasks => "makefile-tasks"

/-- A `SectionItem` as constructed by `getSections`: its title, type,
workspace folder, and the optional manifest/Makefile paths. -/
structure SectionItem where
  title : String
  sectionType : SectionType
  workspaceFolder : Option WorkspaceFolder
  packageJsonPath : Option FsPath
  makefilePath : Option FsPath
deriving DecidableEq, Repr

/-- A root-level element of the tree: the synthetic `RecentItemsSection`
(a distinct class in the source, not a `SectionItem`), or a
`SectionItem`. -/
inductive RootItem where
  | recentSection
  | section (si : SectionItem)
deriving DecidableEq, Repr

/-- `path.basename(folder.uri.fsPath)`: the last path component. -/
def fsBasename (p : FsPath) : String :=
  p.getLastD ""

/-- `String.intercalate`d rendering of an absolute path, used where the
source embeds a path string directly. -/
def fsPathStr (p : FsPath) : String :=
  "/" ++ String.intercalate "/" p

/-- `path.relative(base, p)` for the absolute component paths of this
model: strip the common prefix, then one `..` per remaining component of
`base` followed by the remaining components of `p`. -/
def pathRelative : FsPath → FsPath → String
  | b :: bs, q :: qs =>
    if b == q then pathRelative bs qs
    else String.intercalate "/" ((b :: bs).map (fun _ => "..") ++ (q :: qs))
  | bs, qs => String.intercalate "/" (bs.map (fun _ => "..") ++ qs)

/-- `LaunchConfigurationProvider.generateSectionId(section)`: the section
type, the folder name when truthy, and the folder-relative manifest or
Makefile path when present, joined with dashes. -/
def generateSectionId (si : SectionItem) : String :=
  let id1 := "section-" ++ sectionTypeStr si.sectionType
  let id2 :=
    match si.workspaceFolder with
    | some f => if !(f.name == "") then id1 ++ "-" ++ f.name else id1
    | none => id1
  let id3 :=
    match si.packageJsonPath with
    | some pj =>
      match si.workspaceFolder with
      | some f => id2 ++ "-" ++ pathRelative f.fsPath pj
      | none => id2 ++ "-" ++ fsPathStr pj
    | none => id2
  match si.makefilePath with
  | some mk =>
    match si.workspaceFolder with
    | some f => id3 ++ "-" ++ pathRelative f.fsPath mk
    | none => id3 ++ "-" ++ fsPathStr mk
  | none => id3

/-- `HiddenItemsManager.isSectionHidden(sectionId)`:
`this._hiddenSections.some(section => section.id === sectionId)`. -/
def isSectionHidden (hiddenSections : List HiddenItem) (sectionId : String) :
    Bool :=
  hiddenSections.any (fun s => s.id == sectionId)

/-- `LaunchConfigurationProvider.shouldShowSection(section)`: `true` when
no hidden-items manager is set, for the Recently Used section type, and
for any section whose generated id is not in the hidden-sections list. -/
def shouldShowSection (hiddenMgr : Option (List HiddenItem))
    (si : SectionItem) : Bool :=
  match hiddenMgr with
  | none => true
  | some hiddenSections =>
    if si.sectionType == SectionType.recent then true
    else !(isSectionHidden hiddenSections (generateSectionId si))

/-- The scan of `addNestedPackageSections` over the first-level directory
entries of a workspace folder: each non-`node_modules` directory with a
`package.json` yields a scripts section, then its own non-`node_modules`
subdirectories with a `package.json` yield deeper scripts sections.  A
thrown `readdirSync` at the second level aborts the remaining scan while
keeping the sections already pushed (the source's `catch` wraps the whole
loop). -/
def scanNestedPackages (fs : ProviderFs) (folder : WorkspaceFolder) :
    List DirEntry → List RootItem
  | [] => []
  | d :: rest =>
    if d.isDirectory && !(d.entryName == "node_modules") then
      let here : List RootItem :=
        if fs.existsSync (folder.fsPath ++ [d.entryName, "package.json"]) then
          [.section
            { title := d.entryName ++ ": npm Scripts"
              sectionType := .scripts
              workspaceFolder := some folder
              packageJsonPath := some (folder.fsPath ++ [d.entryName, "package.json"])
              makefilePath := none }]
        else []
      match fs.readdirSync (folder.fsPath ++ [d.entryName]) with
      | none => here
      | some nested =>
        let deeper : List RootItem := nested.filterMap (fun nd =>
          if nd.isDirectory && !(nd.entryName == "node_modules") &&
              fs.existsSync
                (folder.fsPath ++ [d.entryName, nd.entryName, "package.json"]) then
            some (.section
              { title := d.entryName ++ "/" ++ nd.entryName ++ ": npm Scripts"
                sectionType := .scripts
                workspaceFolder := some folder
                packageJsonPath :=
                  some (folder.fsPath ++ [d.entryName, nd.entryName, "package.json"])
                makefilePath := none })
          else none)
        here ++ deeper ++ scanNestedPackages fs folder rest
    else scanNestedPackages fs folder rest

/-- `addNestedPackageSections(folder, sections)`: scan the folder's
first-level entries; a thrown top-level `readdirSync` yields nothing. -/
def nestedPackageSections (fs : ProviderFs) (folder : WorkspaceFolder) :
    List RootItem :=
  match fs.readdirSync folder.fsPath with
  | none => []
  | some entries => scanNestedPackages fs folder entries

/-- The sections `getSections` emits for one workspace folder, in source
order: launch configurations (when `.vscode/launch.json` exists), scripts
(when `package.json` exists), JetBrains run configurations (when
`hasJetBrainsRunConfigurations` holds), Makefile tasks (when `Makefile`
exists), then the nested package sections. -/
def sectionsForFolder (fs : ProviderFs) (folder : WorkspaceFolder) :
    List RootItem :=
  (if fs.existsSync (folder.fsPath ++ [".vscode", "launch.json"]) then
    [.section
      { title := fsBasename folder.fsPath
        sectionType := .launchConfigurations
        workspaceFolder := some folder
        packageJsonPath := none, makefilePath := none }]
  else []) ++
  (if fs.existsSync (folder.fsPath ++ ["package.json"]) then
    [.section
      { title := fsBasename folder.fsPath
        sectionType := .scripts
        workspaceFolder := some folder
        packageJsonPath := some (folder.fsPath ++ ["package.json"])
        makefilePath := none }]
  else []) ++
  (if hasJetBrainsRunConfigurations fs folder.fsPath then
    [.section
      { title := fsBasename folder.fsPath
        sectionType := .jetbrainsConfigs
        workspaceFolder := some folder
        packageJsonPath := none, makefilePath := none }]
  else []) ++
  (if fs.existsSync (folder.fsPath ++ ["Makefile"]) then
    [.section
      { title := fsBasename folder.fsPath
        sectionType := .makefileTasks
        workspaceFolder := some folder
        packageJsonPath := none
        makefilePath := some (folder.fsPath ++ ["Makefile"]) }]
  else []) ++
  nestedPackageSections fs folder

/-- The alphabetical-by-name ordering of workspace folders
(`[...workspaceFolders].sort((a, b) => a.name.localeCompare(b.name))`),
modelled as a stable insertion sort on the names. -/
def sortFoldersByName (folders : List WorkspaceFolder) :
    List WorkspaceFolder :=
  let rec insert (f : WorkspaceFolder) : List WorkspaceFolder → List WorkspaceFolder
    | [] => [f]
    | g :: rest =>
      if decide (f.name ≤ g.name) then f :: g :: rest
      else g :: insert f rest
  folders.foldr insert []

/-- `getSections()` from
`src/providers/launch-configuration-provider.ts`: the Recently Used
section first, then the per-folder sections over the alphabetically
sorted workspace folders. -/
def getSections (fs : ProviderFs) (folders : List WorkspaceFolder) :
    List RootItem :=
  .recentSection ::
    (sortFoldersByName folders).flatMap (sectionsForFolder fs)

/-- The root branch of `getChildren` (no element): `getSections` filtered
by `shouldShowSection` — the filter consults `shouldShowSection` only for
`SectionItem` instances and keeps everything else. -/
def rootChildren (fs : ProviderFs) (folders : List WorkspaceFolder)
    (hiddenMgr : Option (List HiddenItem)) : List RootItem :=
  (getSections fs folders).filter (fun it =>
    match it with
    | .recentSection => true
    | .section si => shouldShowSection hiddenMgr si)

/-! ## Concrete instances used by the theorems below -/

/-- A workspace manifest at `/ws/package.json` declaring
`"packageManager": "pnpm@8.0.0"`. -/
def c1Manifest : PackageJson :=
  { packageManager := some "pnpm@8.0.0", enginesNpm := false
    enginesYarn := false, enginesPnpm := false, scripts := none }

/-- A filesystem whose workspace folder `/ws` holds that manifest and a
`yarn.lock`. -/
def c1Fs : PmFs :=
  { fileExists := fun p =>
      p == (["ws", "package.json"] : FsPath) || p == (["ws", "yarn.lock"] : FsPath)
    parseJson := fun p =>
      if p == (["ws", "package.json"] : FsPath) then some c1Manifest else none }

/-- A manifest whose script bodies use only pnpm invocation syntax. -/
def c6Manifest : PackageJson :=
  { packageManager := none, enginesNpm := false, enginesYarn := false
    enginesPnpm := false, scripts := some ["pnpm run watch"] }

/-- A filesystem holding only that manifest: no lock file anywhere. -/
def c6Fs : PmFs :=
  { fileExists := fun p => p == (["ws", "package.json"] : FsPath)
    parseJson := fun p =>
      if p == (["ws", "package.json"] : FsPath) then some c6Manifest else none }

/-- A filesystem with a `yarn.lock` at the workspace root `/ws` and a
nested manifest at `/ws/a/package.json` with no lock file beside it. -/
def c7Fs : PmFs :=
  { fileExists := fun p =>
      p == (["ws", "yarn.lock"] : FsPath) || p == (["ws", "a", "package.json"] : FsPath)
    parseJson := fun _ => none }

/-- The build-file scenario content of the specification:
`build:\n\tgo build ./...\n\ntest:\n\tgo test ./...`. -/
def c3Content : String := "build:\n\tgo build ./...\n\ntest:\n\tgo test ./..."

/-- A document that opens a configuration block named `A` and never
closes it, so the brace-balancing scan runs off the end. -/
def c4Text : String := "\x7b\"name\":\"A\""

/-- The workspace folder `/p` of the JetBrains counterexample. -/
def c2Folder : WorkspaceFolder := { name := "p", fsPath := ["p"] }

/-- A filesystem whose folder `/p` holds a `.run` directory with a single
XML file that parses to a configuration element missing its `name`
attribute — hence to zero valid run configurations. -/
def c2Fs : ProviderFs :=
  { existsSync := fun _ => false
    readdirSync := fun p =>
      if p == (["p"] : FsPath) then
        some [{ entryName := ".run", isDirectory := true }]
      else if p == (["p", ".run"] : FsPath) then
        some [{ entryName := "broken.xml", isDirectory := false }]
      else none
    xmlContent := fun _ =>
      .parsed [[(none, some "GoApplicationRunConfiguration")]] }

/-- The Boolean test for a JetBrains-run-configuration section among the
root items. -/
def isJetbrainsSection : RootItem → Bool
  | .section si => si.sectionType == SectionType.jetbrainsConfigs
  | _ => false

/-- A workspace folder for the Recently-Used-section witness. -/
def c9Folder : WorkspaceFolder := { name := "w", fsPath := ["w"] }

/-- A filesystem for the Recently-Used-section witness: the folder holds
a manifest, so a scripts section is also emitted. -/
def c9Fs : ProviderFs :=
  { existsSync := fun p => p == (["w", "package.json"] : FsPath)
    readdirSync := fun _ => none
    xmlContent := fun _ => .unparseable }

/-- A hidden section entry hiding the witness folder's scripts section. -/
def c9HiddenSection : HiddenItem :=
  { id := "section-scripts-w-package.json", name := "w", type_ := "script"
    path := none, folder := some "w", isSection := some true }

/-- A `SectionItem` carrying the Recently Used section type. -/
def c9RecentSectionItem : SectionItem :=
  { title := "Recently Used", sectionType := .recent
    workspaceFolder := none, packageJsonPath := none, makefilePath := none }

/-- Ten distinct recent entries filling the store to capacity. -/
def c8Items : List RecentItem :=
  [{ name := "t0", ctorName := "ScriptItem" },
   { name := "t1", ctorName := "ScriptItem" },
   { name := "t2", ctorName := "ScriptItem" },
   { name := "t3", ctorName := "ScriptItem" },
   { name := "t4", ctorName := "ScriptItem" },
   { name := "t5", ctorName := "ScriptItem" },
   { name := "t6", ctorName := "ScriptItem" },
   { name := "t7", ctorName := "ScriptItem" },
   { name := "t8", ctorName := "ScriptItem" },
   { name := "t9", ctorName := "ScriptItem" }]

/-- An eleventh, distinct recent entry. -/
def c8NewItem : RecentItem := { name := "t10", ctorName := "ScriptItem" }

/-- A hidden item for the hide-idempotence witness. -/
def c10Item : HiddenItem :=
  { id := "dev-script", name := "dev", type_ := "script"
    path := some "/ws/package.json", folder := some "ws", isSection := none }

/-- A visibility state in which that item is already hidden. -/
def c10State : HiddenItemsState :=
  { hiddenItems := [c10Item], storageWrites := 4, changeEvents := 4 }

/-- The Go-configuration element of the substitution counterexample: a
`package` value carrying the `$PROJECT_DIR$` token. -/
def c5GoElement : GoConfigElement :=
  { packageValue := some "$PROJECT_DIR$/cmd/server"
    workingDirectoryValue := none, goParametersValue := none }

/-! ## Helper lemmas -/

/-- A prefix occurrence is an occurrence. -/
lemma jsIncludes_of_isPrefixOf {s pat : List Char}
    (h : pat.isPrefixOf s = true) : jsIncludes s pat = true := by
  cases s with
  | nil => simpa [jsIncludes] using h
  | cons c t => simp [jsIncludes, h]

/-- Dropping one leading character preserves occurrence. -/
lemma jsIncludes_cons_of_jsIncludes {t : List Char} {pat : List Char}
    (c : Char) (h : jsIncludes t pat = true) :
    jsIncludes (c :: t) pat = true := by
  simp [jsIncludes, h]

/-- Every occurrence of `"pnpm "` contains an occurrence of `"npm "`,
which makes the pnpm branch of the script heuristic in
`detectPackageManager` unreachable. -/
lemma jsIncludes_npm_of_jsIncludes_pnpm (s : List Char)
    (h : jsIncludes s "pnpm ".toList = true) :
    jsIncludes s "npm ".toList = true := by
  induction s with
  | nil => simp [jsIncludes] at h
  | cons c t ih =>
    rw [jsIncludes, Bool.or_eq_true] at h
    rcases h with h | h
    · have : ("npm ".toList).isPrefixOf t = true := by
        cases t with
        | nil => simp_all
        | cons d u =>
          simp only [List.isPrefixOf, List.cons.injEq, Bool.and_eq_true,
            beq_iff_eq] at h ⊢
          exact h.2
      exact jsIncludes_cons_of_jsIncludes c (jsIncludes_of_isPrefixOf this)
    · exact jsIncludes_cons_of_jsIncludes c (ih h)

/-- Filtering away the matches leaves no matches. -/
lemma countP_filter_not_eq_zero {α : Type} (l : List α) (p : α → Bool) :
    (l.filter (fun x => !p x)).countP p = 0 := by
  induction l with
  | nil => rfl
  | cons a t ih =>
    by_cases h : p a = true <;>
      simp [List.filter_cons, h, List.countP_cons, ih]

/-- Filtering away an existing match strictly shrinks the list. -/
lemma length_filter_not_lt_of_any {α : Type} (l : List α) (p : α → Bool)
    (h : l.any p = true) :
    (l.filter (fun x => !p x)).length < l.length := by
  induction l with
  | nil => simp at h
  | cons a t ih =>
    by_cases ha : p a = true
    · simp only [List.filter_cons, ha, Bool.not_true, if_false,
        List.length_cons, cond_false]
      exact Nat.lt_succ_of_le (List.length_filter_le _ t)
    · have ht : t.any p = true := by
        simpa [List.any_cons, ha] using h
      simp only [List.filter_cons, ha, Bool.not_false, if_true,
        List.length_cons, cond_true]
      exact Nat.succ_lt_succ (ih ht)

/-- Filtering away non-existent matches is the identity. -/
lemma filter_not_eq_self_of_any_eq_false {α : Type} (l : List α)
    (p : α → Bool) (h : l.any p = false) :
    l.filter (fun x => !p x) = l := by
  induction l with
  | nil => rfl
  | cons a t ih =>
    simp only [List.any_cons, Bool.or_eq_false_iff] at h
    simp [List.filter_cons, h.1, ih h.2]

/-- `isJetbrainsSection` on the synthetic Recently Used section. -/
lemma isJet_recentSection : isJetbrainsSection RootItem.recentSection = false :=
  rfl

/-- `isJetbrainsSection` on a section item, reduced to its type field. -/
lemma isJet_section_eval (t : String) (st : SectionType)
    (wf : Option WorkspaceFolder) (pj mk : Option FsPath) :
    isJetbrainsSection (RootItem.section
      { title := t, sectionType := st, workspaceFolder := wf
        packageJsonPath := pj, makefilePath := mk }) =
      (st == SectionType.jetbrainsConfigs) :=
  rfl

/-- A list without JetBrains sections counts none. -/
lemma countP_isJet_eq_zero_of_forall (l : List RootItem)
    (h : ∀ x ∈ l, isJetbrainsSection x = false) :
    l.countP isJetbrainsSection = 0 := by
  induction l with
  | nil => rfl
  | cons a t ih =>
    rw [List.countP_cons, h a (by simp), ih (fun x hx => h x (by simp [hx]))]
    simp

/-- The nested-manifest scan only ever emits scripts sections, so it
contributes no JetBrains section. -/
lemma countP_isJet_scanNested (fs : ProviderFs) (folder : WorkspaceFolder)
    (entries : List DirEntry) :
    (scanNestedPackages fs folder entries).countP isJetbrainsSection = 0 := by
  induction entries with
  | nil => rfl
  | cons d rest ih =>
    by_cases hd : (d.isDirectory && !(d.entryName == "node_modules")) = true
    · rw [scanNestedPackages, if_pos hd]
      cases hrd : fs.readdirSync (folder.fsPath ++ [d.entryName]) with
      | none =>
        by_cases hex :
            fs.existsSync (folder.fsPath ++ [d.entryName, "package.json"]) = true <;>
          simp [hex, isJetbrainsSection]
      | some nested =>
        rw [List.countP_append, List.countP_append, ih]
        have hdeep : (nested.filterMap (fun nd =>
            if nd.isDirectory && !(nd.entryName == "node_modules") &&
                fs.existsSync
                  (folder.fsPath ++ [d.entryName, nd.entryName, "package.json"]) then
              some (RootItem.section
                { title := d.entryName ++ "/" ++ nd.entryName ++ ": npm Scripts"
                  sectionType := .scripts
                  workspaceFolder := some folder
                  packageJsonPath :=
                    some (folder.fsPath ++ [d.entryName, nd.entryName, "package.json"])
                  makefilePath := none })
            else none)).countP isJetbrainsSection = 0 := by
          refine countP_isJet_eq_zero_of_forall _ ?_
          intro x hx
          rcases List.mem_filterMap.mp hx with ⟨nd, _, hmk⟩
          by_cases hc : (nd.isDirectory && !(nd.entryName == "node_modules") &&
              fs.existsSync
                (folder.fsPath ++ [d.entryName, nd.entryName, "package.json"])) = true
          · rw [if_pos hc, Option.some.injEq] at hmk
            rw [← hmk]
            rfl
          · rw [if_neg hc] at hmk
            exact absurd hmk (by simp)
        rw [hdeep]
        by_cases hex :
            fs.existsSync (folder.fsPath ++ [d.entryName, "package.json"]) = true <;>
          simp [hex, isJetbrainsSection]
    · rw [scanNestedPackages, if_neg hd]
      exact ih

/-- The escaping of `findConfigPosition` turns any configuration name
into a purely literal pattern that denotes exactly that name. -/
lemma litPattern_escapeRegExp (s : List Char) :
    litPattern (escapeRegExp s) = some s := by
  induction s with
  | nil => rfl
  | cons c rest ih =>
    by_cases h : regexSpecialChar c = true
    · simp [escapeRegExp, h, litPattern, ih]
    · have hbs : (c == '\\') = false := by
        by_contra hc
        rw [Bool.not_eq_false, beq_iff_eq] at hc
        rw [hc] at h
        exact h (by decide)
      rw [Bool.not_eq_true] at h
      rw [escapeRegExp, if_neg (by simp [h]), litPattern.eq_def]
      simp [hbs, h, ih]

/-! ## Claim theorems -/

/-- C1: the claim that a manifest's explicit `packageManager` declaration
always wins — in particular that the workspace's top-level manifest never
uses the inherited root-derived choice — fails on the code: the source's
root test compares `packageDir` with `path.resolve(packageDir, "../..")`,
which differs for any workspace folder below the filesystem root, so the
inherited choice short-circuits even the top-level manifest.  Here the
top-level manifest `/ws/package.json` declares `pnpm@8.0.0`, the root
`yarn.lock` makes the caller pass `yarn` as the inherited choice, and
detection returns `yarn` instead of the declared `pnpm`. -/
theorem c1_declared_tool_overridden_by_inherited_choice :
    c1Manifest.packageManager = some "pnpm@8.0.0" ∧
    detectRootPackageManager c1Fs ["ws"] = some PackageManager.yarn ∧
    isRootPackageDir ((["ws", "package.json"] : FsPath).dropLast) = false ∧
    detectPackageManager c1Fs ["ws", "package.json"]
      (detectRootPackageManager c1Fs ["ws"]) = PackageManager.yarn := by
  refine ⟨rfl, by decide, by decide, by decide⟩

/-- C3: on the specification's build-file scenario the code does find the
two targets `build` and `test`, but both recipe previews are empty: the
recipe scan splits the content right after the matched `target:` text, so
its first line is the empty remainder of the target line, which fails the
`/^\s+/` test and breaks the loop before any indented recipe line is
seen. -/
theorem c3_makefile_recipes_lost :
    getMakefileTasks c3Content = [("build", ""), ("test", "")] := by
  decide

/-- C6: the claim that exclusive use of one tool's invocation syntax in
the script bodies makes detection return that tool fails for pnpm: the
guard `includes("pnpm ") && !includes("npm ")` is unsatisfiable because
every occurrence of `"pnpm "` contains `"npm "`, so a manifest whose only
script is `pnpm run watch` (no declaration, no engines, no lock files
anywhere) resolves to the default `npm` instead of `pnpm`. -/
theorem c6_exclusive_pnpm_scripts_yield_npm :
    c6Manifest.scripts = some ["pnpm run watch"] ∧
    jsIncludes (joinSpace ((["pnpm run watch"] : List String).map String.toList))
      "pnpm ".toList = true ∧
    detectPackageManager c6Fs ["ws", "package.json"] none = PackageManager.npm := by
  refine ⟨rfl, by decide, by decide⟩

/-- C7: for every filesystem state, whenever the workspace root's lock
file determines a tool (via `detectRootPackageManager`) and the manifest's
directory is not the code's root directory, resolving that manifest with
the inherited choice yields the root's tool — in particular even when the
nested directory contains no lock file, since the statement quantifies
over all filesystems. -/
theorem c7_nested_manifest_inherits_root_choice (fs : PmFs) (root : FsPath)
    (packageJsonPath : FsPath) (pm : PackageManager)
    (hroot : detectRootPackageManager fs root = some pm)
    (hnested : isRootPackageDir packageJsonPath.dropLast = false) :
    detectPackageManager fs packageJsonPath (detectRootPackageManager fs root)
      = pm := by
  rw [hroot]
  simp only [detectPackageManager, hnested]

/-- Witness for C7: the root `/ws` carries a `yarn.lock`, the nested
manifest `/ws/a/package.json` has no lock file beside it, and its
resolution yields `yarn`. -/
theorem c7_nested_manifest_inherits_root_choice_witness :
    detectRootPackageManager c7Fs ["ws"] = some PackageManager.yarn ∧
    isRootPackageDir ((["ws", "a", "package.json"] : FsPath).dropLast) = false ∧
    detectPackageManager c7Fs ["ws", "a", "package.json"]
      (detectRootPackageManager c7Fs ["ws"]) = PackageManager.yarn :=
  ⟨by decide, by decide,
    c7_nested_manifest_inherits_root_choice c7Fs ["ws"]
      ["ws", "a", "package.json"] PackageManager.yarn (by decide) (by decide)⟩

/-- C8: in any store state within capacity, recording an already-present
task (same name and kind) removes the old entry and inserts one at the
front — the identity then occurs exactly once, first in the list — and
recording an eleventh distinct task into a full store of ten leaves
exactly ten entries with the tail (least recently used) evicted. -/
theorem c8_record_dedup_and_capacity (items : List RecentItem)
    (item : RecentItem) (hcap : items.length ≤ MAX_RECENT_ITEMS) :
    (items.any (fun e => sameRecentIdentity e item) = true →
      addRecentItem items item =
        item :: items.filter (fun e => !sameRecentIdentity e item) ∧
      (addRecentItem items item).countP (fun e => sameRecentIdentity e item)
        = 1 ∧
      (addRecentItem items item).head? = some item) ∧
    (items.any (fun e => sameRecentIdentity e item) = false →
      items.length = MAX_RECENT_ITEMS →
      addRecentItem items item = item :: items.dropLast ∧
      (addRecentItem items item).length = MAX_RECENT_ITEMS) := by
  constructor
  · intro hpresent
    have hlt : (items.filter (fun e => !sameRecentIdentity e item)).length
        < items.length :=
      length_filter_not_lt_of_any items (fun e => sameRecentIdentity e item)
        hpresent
    have heq : addRecentItem items item =
        item :: items.filter (fun e => !sameRecentIdentity e item) := by
      unfold addRecentItem
      rw [if_neg]
      simp only [List.length_cons]
      omega
    refine ⟨heq, ?_, ?_⟩
    · have hzero : (items.filter
          (fun e => !sameRecentIdentity e item)).countP
          (fun e => sameRecentIdentity e item) = 0 :=
        countP_filter_not_eq_zero items (fun e => sameRecentIdentity e item)
      rw [heq, List.countP_cons, hzero]
      simp [sameRecentIdentity]
    · rw [heq]
      rfl
  · intro hfresh hfull
    simp only [MAX_RECENT_ITEMS] at hfull
    obtain ⟨b, t, rfl⟩ : ∃ b t, items = b :: t := by
      cases items with
      | nil => simp at hfull
      | cons b t => exact ⟨b, t, rfl⟩
    have hfilter : (b :: t).filter (fun e => !sameRecentIdentity e item)
        = b :: t :=
      filter_not_eq_self_of_any_eq_false (b :: t)
        (fun e => sameRecentIdentity e item) hfresh
    have heq : addRecentItem (b :: t) item = item :: (b :: t).dropLast := by
      unfold addRecentItem
      rw [hfilter, if_pos]
      · exact List.dropLast_cons₂
      · simp only [List.length_cons, MAX_RECENT_ITEMS]
        simp only [List.length_cons] at hfull
        omega
    refine ⟨heq, ?_⟩
    rw [heq]
    simp only [List.length_cons, List.length_dropLast, MAX_RECENT_ITEMS]
    simp only [List.length_cons] at hfull
    omega

/-- Witness for C8: a full store of ten distinct entries, an eleventh
distinct task recorded: the result is the new item in front of the first
nine, ten entries in total. -/
theorem c8_record_dedup_and_capacity_witness :
    c8Items.length ≤ MAX_RECENT_ITEMS ∧
    c8Items.any (fun e => sameRecentIdentity e c8NewItem) = false ∧
    c8Items.length = MAX_RECENT_ITEMS ∧
    (addRecentItem c8Items c8NewItem = c8NewItem :: c8Items.dropLast ∧
      (addRecentItem c8Items c8NewItem).length = MAX_RECENT_ITEMS) :=
  ⟨by decide, by decide, by decide,
    (c8_record_dedup_and_capacity c8Items c8NewItem (by decide)).2
      (by decide) (by decide)⟩

/-- C10: `hideItem` on an already-hidden id leaves the state unchanged —
no list change, no storage write, no change notification — while hiding a
fresh id appends the item and performs exactly one write and one
notification. -/
theorem c10_hideItem_idempotent (st : HiddenItemsState) (item : HiddenItem) :
    (isItemHidden st.hiddenItems item.id = true → hideItem st item = st) ∧
    (isItemHidden st.hiddenItems item.id = false →
      (hideItem st item).hiddenItems = st.hiddenItems ++ [item] ∧
      (hideItem st item).storageWrites = st.storageWrites + 1 ∧
      (hideItem st item).changeEvents = st.changeEvents + 1) := by
  constructor
  · intro h
    simp [hideItem, h]
  · intro h
    simp [hideItem, h]

/-- Witness for C10: hiding the already-hidden `dev-script` item does not
change the state. -/
theorem c10_hideItem_idempotent_witness :
    isItemHidden c10State.hiddenItems c10Item.id = true ∧
    hideItem c10State c10Item = c10State :=
  ⟨by decide, (c10_hideItem_idempotent c10State c10Item).1 (by decide)⟩

/-- C9: for every filesystem, workspace-folder list and visibility state,
the root listing starts with the synthetic Recently Used section — the
root filter keeps it unconditionally — and `shouldShowSection` returns
`true` for any section of the Recently Used type no matter which sections
are hidden. -/
theorem c9_recent_section_first_never_hidden (fs : ProviderFs)
    (folders : List WorkspaceFolder)
    (hiddenMgr : Option (List HiddenItem)) :
    (rootChildren fs folders hiddenMgr).head? = some RootItem.recentSection ∧
    (∀ hm : Option (List HiddenItem), ∀ si : SectionItem,
      si.sectionType = SectionType.recent →
      shouldShowSection hm si = true) := by
  constructor
  · simp [rootChildren, getSections, List.filter_cons]
  · intro hm si h
    cases hm with
    | none => rfl
    | some hiddenSections => simp [shouldShowSection, h]

/-- Witness for C9: a concrete workspace with a hidden scripts section
still lists the Recently Used section first, and a Recently-Used-typed
section is shown. -/
theorem c9_recent_section_first_never_hidden_witness :
    (rootChildren c9Fs [c9Folder] (some [c9HiddenSection])).head? =
      some RootItem.recentSection ∧
    shouldShowSection (some [c9HiddenSection]) c9RecentSectionItem = true :=
  ⟨(c9_recent_section_first_never_hidden c9Fs [c9Folder]
      (some [c9HiddenSection])).1,
    (c9_recent_section_first_never_hidden c9Fs [c9Folder]
      (some [c9HiddenSection])).2 (some [c9HiddenSection])
      c9RecentSectionItem rfl⟩

/-- C2 (counterexample): a folder whose `.run` directory holds one XML
file that yields zero valid run configurations (its configuration element
has no `name`) still gets a JetBrains section in the root listing,
refuting the claim that a root with XML files but zero valid
configurations must not produce the section. -/
theorem c2_empty_jetbrains_section_emitted :
    findRunConfigurations c2Fs ["p"] = [] ∧
    getSections c2Fs [c2Folder] =
      [RootItem.recentSection,
       RootItem.section
         { title := "p", sectionType := SectionType.jetbrainsConfigs
           workspaceFolder := some c2Folder, packageJsonPath := none
           makefilePath := none }] := by
  refine ⟨by decide, by decide⟩

/-- C2 (amended): the JetBrains section of a folder is emitted exactly
when `hasJetBrainsRunConfigurations` holds, i.e. when at least one XML
file exists in the `.run` or `.idea/runConfigurations` directory — and
that decision is independent of every XML file's parsed content, so
validity of the configurations is never consulted. -/
theorem c2_jetbrains_section_from_xml_existence (fs : ProviderFs)
    (folder : WorkspaceFolder) :
    ((getSections fs [folder]).countP isJetbrainsSection =
      if hasJetBrainsRunConfigurations fs folder.fsPath then 1 else 0) ∧
    (∀ g : FsPath → JetXmlContent,
      hasJetBrainsRunConfigurations
        { existsSync := fs.existsSync, readdirSync := fs.readdirSync
          xmlContent := g } folder.fsPath =
        hasJetBrainsRunConfigurations fs folder.fsPath) := by
  constructor
  · have hsort : sortFoldersByName [folder] = [folder] := rfl
    rw [getSections, hsort, List.countP_cons]
    have hnest := countP_isJet_scanNested fs folder
    by_cases h1 :
        fs.existsSync (folder.fsPath ++ [".vscode", "launch.json"]) = true <;>
    by_cases h2 : fs.existsSync (folder.fsPath ++ ["package.json"]) = true <;>
    by_cases h3 : hasJetBrainsRunConfigurations fs folder.fsPath = true <;>
    by_cases h4 : fs.existsSync (folder.fsPath ++ ["Makefile"]) = true <;>
      cases hrd : fs.readdirSync folder.fsPath <;>
        simp [sectionsForFolder, nestedPackageSections, h1, h2, h3, h4, hrd,
          List.countP_append, List.countP_cons, isJet_recentSection,
          isJet_section_eval, hnest]
  · intro g
    rfl

/-- C4 (counterexample): on the document that opens a block named `A`
and never closes it, the brace-balancing scan runs off the end, yet
`findConfigPosition` returns a position (whose end is the end of the
regex match) instead of the claimed "position unknown". -/
theorem c4_position_returned_when_braces_unbalanced :
    findBlockEnd (c4Text.toList.drop 11) 11 1 = none ∧
    (findConfigPosition c4Text.toList "A".toList).isSome = true ∧
    findConfigPosition c4Text.toList "A".toList =
      some { startLine := 0, startCharacter := 0
             endLine := 0, endCharacter := 11 } := by
  refine ⟨by decide, by decide, by decide⟩

/-- C4 (amended): the name escaping makes the embedded pattern a literal
occurrence of the configuration name, and whenever the brace-balancing
scan runs off the end of the document the lookup terminates and returns a
position whose end is the end of the regex match — not `none`. -/
theorem c4_escaped_literal_and_runoff_position (cfg text : List Char)
    (idx len : Nat)
    (hmatch : findConfigMatchFrom cfg text 0 = some (idx, len))
    (hrunoff : findBlockEnd (text.drop (idx + len)) (idx + len) 1 = none) :
    litPattern (escapeRegExp cfg) = some cfg ∧
    findConfigPosition text cfg =
      some { startLine := (positionAt text idx).1
             startCharacter := (positionAt text idx).2
             endLine := (positionAt text (idx + len)).1
             endCharacter := (positionAt text (idx + len)).2 } := by
  refine ⟨litPattern_escapeRegExp cfg, ?_⟩
  rw [findConfigPosition, hmatch]
  simp [hrunoff]

/-- Witness for C4 (amended), at the unterminated document. -/
theorem c4_escaped_literal_and_runoff_position_witness :
    findConfigMatchFrom "A".toList c4Text.toList 0 = some (0, 11) ∧
    findBlockEnd (c4Text.toList.drop (0 + 11)) (0 + 11) 1 = none ∧
    (litPattern (escapeRegExp "A".toList) = some "A".toList ∧
      findConfigPosition c4Text.toList "A".toList =
        some { startLine := (positionAt c4Text.toList 0).1
               startCharacter := (positionAt c4Text.toList 0).2
               endLine := (positionAt c4Text.toList (0 + 11)).1
               endCharacter := (positionAt c4Text.toList (0 + 11)).2 }) :=
  ⟨by decide, by decide,
    c4_escaped_literal_and_runoff_position "A".toList c4Text.toList 0 11
      (by decide) (by decide)⟩

/-- C5 (counterexample): a Go-application configuration whose `package`
value carries the `$PROJECT_DIR$` token surfaces it verbatim — the token
is not replaced in the execution-target path, refuting the claim that
every extracted field has the token replaced. -/
theorem c5_go_package_path_keeps_token :
    (processGoConfiguration (.single c5GoElement) emptyJetRunConfig
      "/ws").packagePath = some "$PROJECT_DIR$/cmd/server" ∧
    jsIncludes "$PROJECT_DIR$/cmd/server".toList projectDirToken = true := by
  refine ⟨by decide, by decide⟩

/-- C5 (amended): the `$PROJECT_DIR$` token is substituted exactly in the
working-directory fields and the shell script-file path; the Go package
path, the command/parameters fields and the inline script text are
surfaced verbatim. -/
theorem c5_token_substitution_by_field (root : String) (rc : JetRunConfig)
    (v : String) (hv : v ≠ "") :
    ((processShellOption ⟨some "SCRIPT_PATH", some v⟩ rc root).packagePath =
      some (String.mk (replaceProjectDir root.toList v.toList))) ∧
    ((processShellOption ⟨some "SCRIPT_WORKING_DIRECTORY", some v⟩ rc
        root).workingDirectory =
      some (String.mk (replaceProjectDir root.toList v.toList))) ∧
    ((processShellOption ⟨some "SCRIPT_TEXT", some v⟩ rc root).scriptText =
      some v) ∧
    ((processShellOption ⟨some "SCRIPT_OPTIONS", some v⟩ rc root).command =
      some v) ∧
    ((processGoConfiguration (.single ⟨some v, none, none⟩) rc
        root).packagePath = some v) ∧
    ((processGoConfiguration (.single ⟨none, some v, none⟩) rc
        root).workingDirectory =
      some (String.mk (replaceProjectDir root.toList v.toList))) ∧
    ((processGoConfiguration (.single ⟨none, none, some v⟩) rc
        root).command = some v) := by
  refine ⟨?_, ?_, ?_, ?_, ?_, ?_, ?_⟩ <;>
    simp [processShellOption, processGoConfiguration, applyGoElement, hv]

/-- Witness for C5 (amended): a shell `SCRIPT_PATH` value carrying the
token has it replaced with the root. -/
theorem c5_token_substitution_by_field_witness :
    ("$PROJECT_DIR$/run.sh" : String) ≠ "" ∧
    (processShellOption ⟨some "SCRIPT_PATH", some "$PROJECT_DIR$/run.sh"⟩
      emptyJetRunConfig "/ws").packagePath = some "/ws/run.sh" :=
  ⟨by decide,
    (c5_token_substitution_by_field "/ws" emptyJetRunConfig
      "$PROJECT_DIR$/run.sh" (by decide)).1⟩

end LaunchSidebar
